import Mathlib

/-!
Verification development for the wallet transaction-construction core of the
full-service repository.

The Rust sources are shallowly embedded below:
- src/full-service/src/service/transaction_builder.rs
  (WalletTransactionBuilder: set_txos, select_txos, add_recipient, set_fee,
   set_tombstone, build, get_rings)
- src/full-service/src/service/ledger.rs (LedgerService::sample_mixins)
- src/full-service/src/db/assigned_subaddress.rs
  (AssignedSubaddress::create_next_for_account, orphan-repair pass)
- src/full-service/core/src/error.rs (WalletTransactionBuilderError)

Modelling conventions:
- Machine integers are Nat; u64 arithmetic that can overflow in Rust is made
  explicit with a 2^64 modulus (wrapping, the release-build semantics of the
  unchecked `+` and `-` in build()).  Sums computed in u128 in the source are
  plain Nat sums compared against u64::MAX, exactly as the source compares.
- Opaque cryptographic objects (TxOut contents, membership proofs, keys, key
  images, public addresses) are represented by Nat identifiers; the ledger is
  a function from index to content.  The external crates (TransactionBuilder,
  InputCredentials, memo builders, fog resolution) are out of scope per the
  spec; their record-keeping effect (which outputs with which values were
  added) is kept, their cryptography is not.
- Randomness (thread_rng) is replaced by an explicit parameter: `sampled` is
  the list of decoy indices the sampling loop produced; theorems that need it
  assume exactly the properties the loop guarantees (length, bounds,
  disjointness from the excluded indices).
- BTreeMap is embedded as an association list sorted strictly by key
  (`insertWith` below), preserving the ascending iteration order.
-/

namespace FullService

/-- Modulus of u64 arithmetic. -/
def u64Limit : Nat := 2 ^ 64

/-- Largest u64 value, the bound the source compares u128 sums against. -/
def u64Max : Nat := 2 ^ 64 - 1

/-- Wrapping u64 addition (Rust release semantics of `+=` on u64). -/
def wadd (a b : Nat) : Nat := (a + b) % u64Limit

/-- Wrapping u64 subtraction (Rust release semantics of `-` on u64);
both arguments are maintained below 2^64 by construction. -/
def wsub (a b : Nat) : Nat := (a + u64Limit - b) % u64Limit

/-- mc_transaction_core::constants::RING_SIZE (protocol constant). -/
def RING_SIZE : Nat := 11

/-- Mob::MINIMUM_FEE from mc_transaction_core (protocol constant, picoMOB). -/
def MOB_MINIMUM_FEE : Nat := 400000000

/-- Mob::ID, the token id of the MOB asset type. -/
def MOB_ID : Nat := 0

/-- transaction_builder.rs: DEFAULT_NEW_TX_BLOCK_ATTEMPTS. -/
def DEFAULT_NEW_TX_BLOCK_ATTEMPTS : Nat := 10

/-- A wallet-db Txo row, restricted to the fields the embedded functions
read: value, token_id, spent_block_index, subaddress_index, and the decoded
TxOut content (`txo` bytes), plus its row id. -/
structure Txo where
  id : Nat
  value : Nat
  tokenId : Nat
  spentBlockIndex : Option Nat
  subaddressIndex : Option Nat
  content : Nat
deriving DecidableEq, Repr

/-- Modelled from the spec (section 7 and the in-file tests): the wallet-db
error variants that selection can surface; the db error enum itself is not
under src/. -/
inductive WalletDbError where
  | NoSpendableTxos
  | InsufficientFundsUnderMaxSpendable (msg : String)
deriving DecidableEq, Repr

/-- WalletTransactionBuilderError, from full-service/core/src/error.rs,
restricted to the variants the embedded operations can produce, plus the
WalletDb wrapper that the in-file tests match on (the main crate's error
module is not under src/). -/
inductive WalletTransactionBuilderError where
  | InsufficientFunds (msg : String)
  | InsufficientInputFunds (msg : String)
  | InsufficientTxOuts
  | RingSizeMismatch
  | NoRecipient
  | RingsAndProofsEmpty
  | InvalidArgument (msg : String)
  | NoInputs
  | OutboundValueTooLarge
  | TombstoneNotSet
  | InsufficientFee (msg : String)
  | MissingInputsForTokenId (msg : String)
  | WalletDb (e : WalletDbError)
deriving DecidableEq, Repr

open WalletTransactionBuilderError in
/-- Builder state of WalletTransactionBuilder: explicit or selected inputs,
outlays as (recipient public address, value, token id) triples, tombstone
block, and optional fee.  account_id, ledger handle and the fog resolver
factory live in the environment. -/
structure Builder where
  inputs : List Txo
  outlays : List (Nat × Nat × Nat)
  tombstone : Nat
  fee : Option (Nat × Nat)
deriving DecidableEq, Repr

/-- WalletTransactionBuilder::new: empty inputs and outlays, tombstone 0,
no fee set. -/
def Builder.new : Builder :=
  { inputs := [], outlays := [], tombstone := 0, fee := none }

/-- WalletTransactionBuilder::set_txos.  The argument is the list of Txo rows
that Txo::select_by_id resolved for the given ids.  Only unspent txos are
kept; their u128 value sum is checked against u64::MAX. -/
def setTxos (b : Builder) (txos : List Txo) :
    Except WalletTransactionBuilderError Builder :=
  let unspent := txos.filter (fun t => t.spentBlockIndex.isNone)
  if (unspent.map (fun t => t.value)).sum > u64Max then
    .error .OutboundValueTooLarge
  else
    .ok { b with inputs := unspent }

/-- Sum of the already-recorded outlay values for one token id, the u128
`cur_sum` of add_recipient (note: it does not include the value being
added). -/
def outlaySumFor (b : Builder) (tokenId : Nat) : Nat :=
  ((b.outlays.filter (fun o => o.2.2 = tokenId)).map (fun o => o.2.1)).sum

/-- WalletTransactionBuilder::add_recipient. -/
def addRecipient (b : Builder) (recipient value tokenId : Nat) :
    Except WalletTransactionBuilderError Builder :=
  if outlaySumFor b tokenId > u64Max then
    .error .OutboundValueTooLarge
  else
    .ok { b with outlays := b.outlays ++ [(recipient, value, tokenId)] }

/-- WalletTransactionBuilder::set_fee. -/
def setFee (b : Builder) (fee tokenId : Nat) :
    Except WalletTransactionBuilderError Builder :=
  if fee < 1 then
    .error (.InsufficientFee "1")
  else
    .ok { b with fee := some (fee, tokenId) }

/-- WalletTransactionBuilder::set_tombstone; `numBlocks` is
ledger_db.num_blocks(). -/
def setTombstone (b : Builder) (tombstone numBlocks : Nat) : Builder :=
  { b with
    tombstone :=
      if tombstone > 0 then tombstone
      else numBlocks + DEFAULT_NEW_TX_BLOCK_ATTEMPTS }

/-- BTreeMap entry(k).and_modify(f).or_insert(v) on an association list
sorted strictly ascending by key. -/
def insertWith (f : Nat → Nat → Nat) (k v : Nat) :
    List (Nat × Nat) → List (Nat × Nat)
  | [] => [(k, v)]
  | (k1, v1) :: rest =>
    if k < k1 then (k, v) :: (k1, v1) :: rest
    else if k = k1 then (k1, f v1 v) :: rest
    else (k1, v1) :: insertWith f k v rest

/-- BTreeMap::get on the association list. -/
def mapLookup (k : Nat) : List (Nat × Nat) → Option Nat
  | [] => none
  | (k1, v1) :: rest => if k = k1 then some v1 else mapLookup k rest

/-- Deterministic greedy accumulation: take candidates in order until the
(saturating) remaining target reaches zero. -/
def greedyTake (target : Nat) : List Txo → List Txo
  | [] => []
  | t :: rest =>
    if target = 0 then [] else t :: greedyTake (target - t.value) rest

/-- Modelled from the spec: Txo::select_spendable_txos_for_value is not under
src/ (only its caller is).  Per spec section 4.1 it receives the account's
txos, a target value that already includes the fee share for this asset type,
and an optional per-output spend cap; it filters to unspent txos of the asset
type, drops candidates above the cap entirely, fails with NoSpendableTxos
when nothing remains, with InsufficientFunds when even the uncapped total is
below target, with InsufficientFundsUnderMaxSpendable when only the capped
total is below target, and otherwise returns a deterministic greedy selection
whose aggregate value reaches the target.  The separate fee argument of the
Rust signature is carried but, per the spec contract, the target is already
fee-inclusive. -/
def select_spendable_txos_for_value (accountTxos : List Txo)
    (targetValue : Nat) (maxSpendable : Option Nat) (tokenId _feeValue : Nat) :
    Except WalletTransactionBuilderError (List Txo) :=
  let unspent := accountTxos.filter
    (fun t => t.spentBlockIndex.isNone && t.tokenId == tokenId)
  let spendable :=
    match maxSpendable with
    | none => unspent
    | some cap => unspent.filter (fun t => t.value ≤ cap)
  if spendable.isEmpty then
    .error (.WalletDb .NoSpendableTxos)
  else if (unspent.map (fun t => t.value)).sum < targetValue then
    .error (.InsufficientFunds (toString targetValue))
  else if (spendable.map (fun t => t.value)).sum < targetValue then
    .error (.WalletDb (.InsufficientFundsUnderMaxSpendable (toString targetValue)))
  else
    .ok (greedyTake targetValue spendable)

/-- The per-token target map of select_txos: fold the outlays into a BTreeMap
of u128 sums, then add the (possibly defaulted) fee to its token's entry. -/
def outlayValueSumMap (b : Builder) : List (Nat × Nat) :=
  let m := b.outlays.foldl (fun acc o => insertWith (fun a c => a + c) o.2.2 o.2.1 acc) []
  let feePair := b.fee.getD (MOB_MINIMUM_FEE, MOB_ID)
  insertWith (fun a c => a + c) feePair.2 feePair.1 m

/-- The loop body of select_txos: iterate the target map in ascending token
order; reject any target above u64::MAX; assign (overwrite, not extend) the
inputs with the selection for the current token. -/
def selectLoop (accountTxos : List Txo) (maxSpendable : Option Nat)
    (feeValue feeTokenId : Nat) (inputs : List Txo) :
    List (Nat × Nat) → Except WalletTransactionBuilderError (List Txo)
  | [] => .ok inputs
  | (tokenId, targetValue) :: rest =>
    if targetValue > u64Max then
      .error .OutboundValueTooLarge
    else
      match select_spendable_txos_for_value accountTxos targetValue
          maxSpendable tokenId (if tokenId = feeTokenId then feeValue else 0) with
      | .error e => .error e
      | .ok sel => selectLoop accountTxos maxSpendable feeValue feeTokenId sel rest

/-- WalletTransactionBuilder::select_txos.  `accountTxos` stands for the
account's txo rows visible through the db connection. -/
def selectTxos (b : Builder) (accountTxos : List Txo)
    (maxSpendable : Option Nat) :
    Except WalletTransactionBuilderError Builder :=
  let feePair := b.fee.getD (MOB_MINIMUM_FEE, MOB_ID)
  match selectLoop accountTxos maxSpendable feePair.1 feePair.2 b.inputs
      (outlayValueSumMap b) with
  | .error e => .error e
  | .ok sel => .ok { b with inputs := sel }

/-- The read-only ledger view build() and get_rings() consult: number of tx
outs, the TxOut content and membership proof at each ledger index, and the
index a TxOut content hashes back to (get_tx_out_index_by_hash). -/
structure LedgerEnv where
  numTxos : Nat
  txoAt : Nat → Nat
  proofAt : Nat → Nat
  indexOfContent : Nat → Nat

/-- The ring-assembly loop of get_rings: consume RING_SIZE sampled indices
per ring, pairing each index's TxOut with its membership proof. -/
def buildRingsFrom (env : LedgerEnv) (sampled : List Nat) :
    Nat → List (List (Nat × Nat))
  | 0 => []
  | r + 1 =>
    (sampled.take RING_SIZE).map (fun i => (env.txoAt i, env.proofAt i)) ::
      buildRingsFrom env (sampled.drop RING_SIZE) r

/-- WalletTransactionBuilder::get_rings.  `sampled` is the list of ledger
indices the rejection-sampling loop produced (RING_SIZE * numRings distinct
unexcluded indices below numTxos in any run that reaches ring assembly). -/
def getRings (env : LedgerEnv) (numRings : Nat)
    (excludedTxOutIndices sampled : List Nat) :
    Except WalletTransactionBuilderError (List (List (Nat × Nat))) :=
  if excludedTxOutIndices.length > env.numTxos then
    .error (.InvalidArgument
      "excluded_tx_out_indices exceeds amount of tx outs in ledger")
  else if RING_SIZE * numRings > env.numTxos - excludedTxOutIndices.length then
    .error .InsufficientTxOuts
  else
    .ok (buildRingsFrom env sampled numRings)

/-- LedgerServiceError from service/ledger.rs, restricted to the variants
sample_mixins can produce. -/
inductive LedgerServiceError where
  | InvalidArgument (msg : String)
  | InsufficientTxOuts
deriving DecidableEq, Repr

/-- LedgerService::sample_mixins from service/ledger.rs: same two guards as
get_rings, then the sampled TxOuts and their membership proofs. -/
def sampleMixins (env : LedgerEnv) (numMixins : Nat)
    (excludedIndices sampled : List Nat) :
    Except LedgerServiceError (List Nat × List Nat) :=
  if excludedIndices.length > env.numTxos then
    .error (.InvalidArgument
      "excluded_tx_out_indices exceeds amount of tx outs in ledger")
  else if numMixins > env.numTxos - excludedIndices.length then
    .error .InsufficientTxOuts
  else
    .ok (sampled.map env.txoAt, sampled.map env.proofAt)

/-- The signable material for one input: ring, membership proofs, position of
the real output, and the subaddress index the one-time key is derived from
(InputCredentials, with the cryptography out of scope). -/
structure InputCred where
  ring : List Nat
  mproofs : List Nat
  realIndex : Nat
  subaddressIndex : Nat
deriving DecidableEq, Repr

/-- The unsigned signing payload build() returns: per-input credentials, the
recipient outputs (recipient, value, token id) in add order, the change
outputs (token id, value) in ascending token order, fee and tombstone. -/
structure SigningData where
  inputCredentials : List InputCred
  payloadOutputs : List (Nat × Nat × Nat)
  changeOutputs : List (Nat × Nat)
  feeValue : Nat
  feeTokenId : Nat
  tombstoneBlock : Nat
deriving DecidableEq, Repr

/-- The input-merge loop of build(): pop one (ring, proofs) pair per input
from the back of the sampled rings; if the real output already occurs in the
ring keep its position, otherwise append it when the ring is empty or
overwrite position 0, the real index being 0 in both sub-cases; check the
ring/proof length invariant before and after. -/
def mergeInputs : List (List Nat × List Nat) → List (Txo × Nat) →
    Except WalletTransactionBuilderError (List InputCred)
  | _, [] => .ok []
  | [], _ :: _ => .error .RingsAndProofsEmpty
  | (ring, mproofs) :: restRings, (utxo, proof) :: restInputs =>
    if ring.length ≠ mproofs.length then
      .error .RingSizeMismatch
    else
      let merged :=
        match ring.findIdx? (fun txo => txo = utxo.content) with
        | some position => (ring, mproofs, position)
        | none =>
          if ring.isEmpty then
            (ring ++ [utxo.content], mproofs ++ [proof], 0)
          else
            (ring.set 0 utxo.content, mproofs.set 0 proof, 0)
      if merged.1.length ≠ merged.2.1.length then
        .error .RingSizeMismatch
      else
        match mergeInputs restRings restInputs with
        | .error e => .error e
        | .ok creds =>
          .ok ({ ring := merged.1, mproofs := merged.2.1,
                 realIndex := merged.2.2,
                 subaddressIndex := utxo.subaddressIndex.getD 0 } :: creds)

/-- The change-output loop of build(): for each token present among inputs,
look its total requested value up (fee plus outlays) and emit one change
output of the wrapping difference; a missing entry is the
MissingInputsForTokenId error. -/
def changeLoop (totalValuePerToken : List (Nat × Nat)) :
    List (Nat × Nat) → Except WalletTransactionBuilderError (List (Nat × Nat))
  | [] => .ok []
  | (tokenId, inputValue) :: rest =>
    match mapLookup tokenId totalValuePerToken with
    | none => .error (.MissingInputsForTokenId (toString tokenId))
    | some totalValue =>
      match changeLoop totalValuePerToken rest with
      | .error e => .error e
      | .ok changes => .ok ((tokenId, wsub inputValue totalValue) :: changes)

/-- The fee pair of a build or selection: the set fee, or the protocol
default (Mob::MINIMUM_FEE, Mob::ID). -/
def feeOf (b : Builder) : Nat × Nat := b.fee.getD (MOB_MINIMUM_FEE, MOB_ID)

/-- build() step: the ledger index of each input, resolved by content hash. -/
def inputIndexes (env : LedgerEnv) (b : Builder) : List Nat :=
  b.inputs.map (fun u => env.indexOfContent u.content)

/-- build() step: each input zipped with its fetched membership proof
(inputs_and_proofs). -/
def inputsWithProofs (env : LedgerEnv) (b : Builder) : List (Txo × Nat) :=
  b.inputs.zip ((inputIndexes env b).map env.proofAt)

/-- build() step: the indices excluded from decoy sampling — the real input
indices, resolved a second time from inputs_and_proofs. -/
def excludedIndices (env : LedgerEnv) (b : Builder) : List Nat :=
  (inputsWithProofs env b).map (fun p => env.indexOfContent p.1.content)

/-- build() step: total_value_per_token — the fee seeded at its token, then
every outlay value added (wrapping u64 addition). -/
def totalValueMap (b : Builder) : List (Nat × Nat) :=
  b.outlays.foldl (fun acc o => insertWith wadd o.2.2 o.2.1 acc)
    [((feeOf b).2, (feeOf b).1)]

/-- build() step: input_value_per_token — per-token sums of the resolved
input values (wrapping u64 addition). -/
def inputValueMap (env : LedgerEnv) (b : Builder) : List (Nat × Nat) :=
  (inputsWithProofs env b).foldl
    (fun acc p => insertWith wadd p.1.tokenId p.1.value acc) []

/-- WalletTransactionBuilder::build.  The environment stands for the account,
ledger and fog lookups that succeed whenever the account exists; `sampled` is
the decoy index list produced by the rng (see getRings).  u64 additions and
the change subtraction wrap, as the unchecked Rust operators do in release
builds. -/
def build (env : LedgerEnv) (b : Builder) (sampled : List Nat) :
    Except WalletTransactionBuilderError SigningData :=
  if b.tombstone = 0 then .error .TombstoneNotSet
  else if b.inputs.isEmpty then .error .NoInputs
  else
    match getRings env (inputsWithProofs env b).length
        (excludedIndices env b) sampled with
    | .error e => .error e
    | .ok rings =>
      if rings.length ≠ (inputsWithProofs env b).length then
        .error .RingSizeMismatch
      else if b.outlays.isEmpty then .error .NoRecipient
      else
        match mergeInputs
            ((rings.map (fun l => (l.map Prod.fst, l.map Prod.snd))).reverse)
            (inputsWithProofs env b) with
        | .error e => .error e
        | .ok creds =>
          match changeLoop (totalValueMap b) (inputValueMap env b) with
          | .error e => .error e
          | .ok changes =>
            .ok { inputCredentials := creds
                  payloadOutputs := b.outlays
                  changeOutputs := changes
                  feeValue := (feeOf b).1
                  feeTokenId := (feeOf b).2
                  tombstoneBlock := b.tombstone }

/-- The balance property of one asset type for a finished build: the summed
input values equal recipient outputs plus change outputs plus the fee when
the asset type is the fee asset type. -/
def balancedForToken (b : Builder) (sd : SigningData) (tokenId : Nat) : Prop :=
  ((b.inputs.filter (fun u => u.tokenId = tokenId)).map (fun u => u.value)).sum =
    ((sd.payloadOutputs.filter (fun o => o.2.2 = tokenId)).map (fun o => o.2.1)).sum +
    ((sd.changeOutputs.filter (fun c => c.1 = tokenId)).map (fun c => c.2)).sum +
    (if tokenId = sd.feeTokenId then sd.feeValue else 0)

instance (b : Builder) (sd : SigningData) (tokenId : Nat) :
    Decidable (balancedForToken b sd tokenId) := by
  unfold balancedForToken; infer_instance

/-- Sufficiency of a builder's input set for one asset type: the selected
unspent outputs of that type aggregate to at least the target. -/
def inputsSufficientFor (b : Builder) (tokenId target : Nat) : Prop :=
  target ≤ ((b.inputs.filter (fun u => u.tokenId = tokenId)).map (fun u => u.value)).sum

instance (b : Builder) (tokenId target : Nat) :
    Decidable (inputsSufficientFor b tokenId target) := by
  unfold inputsSufficientFor; infer_instance

/-- A txo row as the orphan-repair pass of create_next_for_account sees it:
the immutable key material (target key, tx public key) and the three mutable
labels the pass may rewrite. -/
structure OrphanTxo where
  targetKey : Nat
  publicKey : Nat
  subaddressIndex : Option Nat
  keyImage : Option Nat
  spentBlockIndex : Option Nat
deriving DecidableEq, Repr

/-- The pure collaborators of the repair pass, with the account keys and the
newly assigned subaddress fixed: recover_public_subaddress_spend_key applied
to a txo's (target key, tx public key), the subaddress spend public key it is
compared against, the key image recovered from the one-time private key of a
txo's tx public key, the ledger's key-image spent-set, and the block index of
the txo (via get_tx_out_index_by_public_key / get_block_index_by_tx_out_index). -/
structure RepairEnv where
  recoverSubaddressSpendKey : Nat → Nat → Nat
  subaddressSpendPublicKey : Nat
  deriveKeyImage : Nat → Nat
  ledgerContainsKeyImage : Nat → Bool
  blockIndexOfTxo : Nat → Nat
  nextSubaddressIndex : Nat

/-- One iteration of the repair loop of create_next_for_account (full-key
account branch): when the recovered subaddress spend key matches, mark the
txo spent at its block if the ledger holds the recomputed key image, then
set the subaddress index and key image; otherwise leave the txo alone. -/
def repairTxo (env : RepairEnv) (t : OrphanTxo) : OrphanTxo :=
  if env.recoverSubaddressSpendKey t.targetKey t.publicKey =
      env.subaddressSpendPublicKey then
    let keyImage := env.deriveKeyImage t.publicKey
    let t1 :=
      if env.ledgerContainsKeyImage keyImage then
        { t with spentBlockIndex := some (env.blockIndexOfTxo t.publicKey) }
      else t
    { t1 with subaddressIndex := some env.nextSubaddressIndex,
              keyImage := some keyImage }
  else t

/-- One iteration of the repair loop in the view-only account branch: only
the subaddress index is rewritten on a match. -/
def repairTxoViewOnly (env : RepairEnv) (t : OrphanTxo) : OrphanTxo :=
  if env.recoverSubaddressSpendKey t.targetKey t.publicKey =
      env.subaddressSpendPublicKey then
    { t with subaddressIndex := some env.nextSubaddressIndex }
  else t

/-- The repair pass over an orphan set (full-key branch). -/
def repairOrphans (env : RepairEnv) (ts : List OrphanTxo) : List OrphanTxo :=
  ts.map (repairTxo env)

/-- The repair pass over an orphan set (view-only branch). -/
def repairOrphansViewOnly (env : RepairEnv) (ts : List OrphanTxo) :
    List OrphanTxo :=
  ts.map (repairTxoViewOnly env)

/-- A txo is correctly labeled for the repair pass when, if it matches the
subaddress, its subaddress index, key image and (when the ledger holds the
key image) spent block already carry the values the pass derives. -/
def correctlyLabeled (env : RepairEnv) (t : OrphanTxo) : Prop :=
  env.recoverSubaddressSpendKey t.targetKey t.publicKey =
      env.subaddressSpendPublicKey →
    t.subaddressIndex = some env.nextSubaddressIndex ∧
    t.keyImage = some (env.deriveKeyImage t.publicKey) ∧
    (env.ledgerContainsKeyImage (env.deriveKeyImage t.publicKey) = true →
      t.spentBlockIndex = some (env.blockIndexOfTxo t.publicKey))

instance (env : RepairEnv) (t : OrphanTxo) :
    Decidable (correctlyLabeled env t) := by
  unfold correctlyLabeled; infer_instance

/-! Concrete instances used by counterexamples and witnesses. -/

/-- A 12-output ledger whose content and proof at index i are i and i + 100,
with contents hashing back to their own index. -/
def ledgerTwelve : LedgerEnv :=
  { numTxos := 12, txoAt := fun i => i, proofAt := fun i => i + 100,
    indexOfContent := fun c => c }

/-- The decoy indices a sampling run for one ring can produce on
ledgerTwelve when index 11 is excluded. -/
def decoySample : List Nat := List.range 11

/-- An unspent 80-unit MOB txo sitting at ledger index 11. -/
def txo80 : Txo :=
  { id := 0, value := 80, tokenId := 0, spentBlockIndex := none,
    subaddressIndex := some 0, content := 11 }

/-- Explicit inputs worth exactly the requested outlay, leaving nothing for
the fee: the scenario of the test test_setting_txos. -/
def underfundedBuilder : Builder :=
  { inputs := [txo80], outlays := [(1, 80, 0)], tombstone := 13, fee := none }

/-- What build() returns on underfundedBuilder: a payload whose change
output carries the wrapped-around difference 2^64 - MINIMUM_FEE. -/
def underfundedSigningData : SigningData :=
  { inputCredentials :=
      [{ ring := [11, 1, 2, 3, 4, 5, 6, 7, 8, 9, 10],
         mproofs := [111, 101, 102, 103, 104, 105, 106, 107, 108, 109, 110],
         realIndex := 0, subaddressIndex := 0 }],
    payloadOutputs := [(1, 80, 0)],
    changeOutputs := [(0, 18446744073309551616)],
    feeValue := 400000000, feeTokenId := 0, tombstoneBlock := 13 }

/-- An unspent 500000000-unit MOB txo at ledger index 11. -/
def txoExact : Txo :=
  { id := 0, value := 500000000, tokenId := 0, spentBlockIndex := none,
    subaddressIndex := some 2, content := 11 }

/-- Inputs worth exactly outlay + fee, so the change output is zero. -/
def exactChangeBuilder : Builder :=
  { inputs := [txoExact], outlays := [(1, 100000000, 0)], tombstone := 13,
    fee := none }

/-- What build() returns on exactChangeBuilder: one zero-valued change
output for the input asset type. -/
def exactChangeSigningData : SigningData :=
  { inputCredentials :=
      [{ ring := [11, 1, 2, 3, 4, 5, 6, 7, 8, 9, 10],
         mproofs := [111, 101, 102, 103, 104, 105, 106, 107, 108, 109, 110],
         realIndex := 0, subaddressIndex := 2 }],
    payloadOutputs := [(1, 100000000, 0)],
    changeOutputs := [(0, 0)],
    feeValue := 400000000, feeTokenId := 0, tombstoneBlock := 13 }

/-- A builder already holding a u64::MAX outlay for token 0 (reachable: the
first add_recipient call succeeds on an empty builder). -/
def maxedOutlayBuilder : Builder :=
  { inputs := [], outlays := [(0, u64Max, 0)], tombstone := 0, fee := none }

/-- A builder whose token-0 target (outlays plus fee) exceeds u64::MAX. -/
def overflowingTargetBuilder : Builder :=
  { inputs := [], outlays := [(0, u64Max, 0), (0, 2, 0)], tombstone := 0,
    fee := none }

/-- An unspent 400000000-unit token-0 txo. -/
def txoFeeToken : Txo :=
  { id := 0, value := 400000000, tokenId := 0, spentBlockIndex := none,
    subaddressIndex := some 0, content := 1 }

/-- An unspent 5-unit token-1 txo. -/
def txoOtherToken : Txo :=
  { id := 1, value := 5, tokenId := 1, spentBlockIndex := none,
    subaddressIndex := some 0, content := 2 }

/-- A builder paying 5 units of token 1, with the default MOB fee, so the
selection target map spans two asset types. -/
def twoTokenBuilder : Builder :=
  { inputs := [], outlays := [(9, 5, 1)], tombstone := 0, fee := none }

/-- A builder paying 5 units of MOB with the default MOB fee. -/
def oneTokenBuilder : Builder :=
  { inputs := [], outlays := [(9, 5, 0)], tombstone := 0, fee := none }

/-- An unspent 500000000-unit MOB txo for the single-token selection run. -/
def txoSelectable : Txo :=
  { id := 0, value := 500000000, tokenId := 0, spentBlockIndex := none,
    subaddressIndex := some 0, content := 1 }

/-- A spent txo row (spent at block 3). -/
def spentTxo : Txo :=
  { id := 4, value := 7, tokenId := 0, spentBlockIndex := some 3,
    subaddressIndex := some 0, content := 5 }

/-- A builder with a recipient and a nonzero tombstone, awaiting inputs. -/
def readyBuilder : Builder :=
  { inputs := [txo80], outlays := [(1, 2, 0)], tombstone := 5, fee := none }

/-! Claim C8: set_fee and the protocol minimum fee. -/

/-- Claim C8, counterexample: set_fee accepts the fee 1, far below the
protocol-defined minimum fee of the MOB asset type (400000000), refuting
that every fee below the protocol minimum is rejected with
InsufficientFee. -/
theorem setFee_accepts_fee_below_protocol_minimum :
    1 < MOB_MINIMUM_FEE ∧
    setFee Builder.new 1 MOB_ID =
      Except.ok { Builder.new with fee := some (1, MOB_ID) } := by
  exact ⟨by decide, rfl⟩

/-- Claim C8, amended: set_fee rejects exactly the fee values below 1
(that is, only fee = 0) with InsufficientFee, returning before the builder
fee field is assigned; every fee of at least 1 — including values below the
protocol-defined minimum — is stored. -/
theorem setFee_rejects_exactly_zero (b : Builder) (fee tokenId : Nat) :
    (fee = 0 →
      setFee b fee tokenId =
        Except.error (WalletTransactionBuilderError.InsufficientFee "1")) ∧
    (1 ≤ fee →
      setFee b fee tokenId = Except.ok { b with fee := some (fee, tokenId) }) := by
  constructor
  · intro h; subst h; rfl
  · intro h; unfold setFee; rw [if_neg (by omega)]

/-- Claim C8, witness: the amended theorem evaluated at fee 400000000. -/
theorem setFee_rejects_exactly_zero_witness :
    1 ≤ 400000000 ∧
    setFee Builder.new 400000000 MOB_ID =
      Except.ok { Builder.new with fee := some (400000000, MOB_ID) } :=
  ⟨by decide,
   (setFee_rejects_exactly_zero Builder.new 400000000 MOB_ID).2 (by decide)⟩

/-! Claim C5: the cumulative-overflow guard of add_recipient and
select_txos. -/

/-- Claim C5, counterexample: on a builder already holding a u64::MAX outlay
for token 0, adding one more unit makes the cumulative requested value
u64::MAX + 1, yet add_recipient succeeds — the guard compares only the sum
of the previously recorded outlays, excluding the value being added. -/
theorem addRecipient_accepts_cumulative_overflow :
    u64Max < u64Max + 1 ∧
    addRecipient maxedOutlayBuilder 0 1 0 =
      Except.ok { maxedOutlayBuilder with
                  outlays := maxedOutlayBuilder.outlays ++ [(0, 1, 0)] } :=
  ⟨Nat.lt_succ_self _, rfl⟩

/-- Claim C5, amended: add_recipient fails with OutboundValueTooLarge
exactly when the sum of the already-recorded outlay values for the token —
excluding the value being added — exceeds u64::MAX (so the first
overflowing addition succeeds); the cumulative target including the new
value and the fee is instead rejected with OutboundValueTooLarge by
select_txos, before any selection for the affected asset type. -/
theorem outbound_overflow_guard_locations :
    (∀ b r v t, addRecipient b r v t =
      if outlaySumFor b t > u64Max then
        Except.error WalletTransactionBuilderError.OutboundValueTooLarge
      else Except.ok { b with outlays := b.outlays ++ [(r, v, t)] }) ∧
    (∀ b accountTxos cap t v,
      (outlayValueSumMap b).head? = some (t, v) → v > u64Max →
      selectTxos b accountTxos cap =
        Except.error WalletTransactionBuilderError.OutboundValueTooLarge) := by
  constructor
  · intro b r v t; rfl
  · intro b accountTxos cap t v hhead hgt
    obtain ⟨rest, hm⟩ : ∃ rest, outlayValueSumMap b = (t, v) :: rest := by
      cases h : outlayValueSumMap b with
      | nil => rw [h] at hhead; simp at hhead
      | cons a l =>
        rw [h] at hhead
        simp only [List.head?_cons, Option.some.injEq] at hhead
        exact ⟨l, by rw [hhead]⟩
    simp only [selectTxos, selectLoop, hm, if_pos hgt]

/-- Claim C5, witness: the select_txos half of the amended theorem at a
builder whose token-0 target is u64::MAX + 2 + 400000000. -/
theorem outbound_overflow_guard_witness :
    (outlayValueSumMap overflowingTargetBuilder).head? =
      some (0, 18446744074109551617) ∧
    u64Max < 18446744074109551617 ∧
    selectTxos overflowingTargetBuilder [] none =
      Except.error WalletTransactionBuilderError.OutboundValueTooLarge :=
  ⟨by decide, by decide,
   outbound_overflow_guard_locations.2 overflowingTargetBuilder [] none 0
     18446744074109551617 (by decide) (by decide)⟩

/-! Claim C10: set_txos keeps exactly the unspent resolved txos. -/

/-- Claim C10: set_txos sets the inputs to exactly the unspent subset of the
resolved txos — spent txos are silently dropped — the OutboundValueTooLarge
check sums only that retained subset, and when every listed txo is spent the
inputs become empty, so a subsequent build (with the tombstone set) fails
with NoInputs. -/
theorem setTxos_keeps_unspent (b : Builder) (txos : List Txo) :
    (setTxos b txos =
        Except.error WalletTransactionBuilderError.OutboundValueTooLarge ↔
      u64Max <
        ((txos.filter (fun t => t.spentBlockIndex.isNone)).map
          (fun t => t.value)).sum) ∧
    (∀ b1, setTxos b txos = Except.ok b1 →
      b1 = { b with
             inputs := txos.filter (fun t => t.spentBlockIndex.isNone) }) ∧
    ((∀ t ∈ txos, t.spentBlockIndex.isNone = false) →
      setTxos b txos = Except.ok { b with inputs := [] } ∧
      ∀ env sampled, b.tombstone ≠ 0 →
        build env { b with inputs := [] } sampled =
          Except.error WalletTransactionBuilderError.NoInputs) := by
  refine ⟨?_, ?_, ?_⟩
  · simp only [setTxos]
    split_ifs with h
    · simpa using h
    · simp only [gt_iff_lt, not_lt] at h
      constructor
      · intro hc; exact absurd hc (by simp)
      · intro hc; omega
  · intro b1 hok
    simp only [setTxos] at hok
    split_ifs at hok with h
    simpa using hok.symm
  · intro hall
    have hfil : txos.filter (fun t => t.spentBlockIndex.isNone) = [] := by
      rw [List.filter_eq_nil_iff]
      intro t ht
      simp [hall t ht]
    constructor
    · simp only [setTxos, hfil]
      simp [u64Max]
    · intro env sampled htomb
      simp only [build, if_neg htomb]
      rfl

/-- Claim C10, witness: a single spent txo is dropped, the builder inputs
become empty, and build then fails with NoInputs. -/
theorem setTxos_keeps_unspent_witness :
    (∀ t ∈ [spentTxo], t.spentBlockIndex.isNone = false) ∧
    readyBuilder.tombstone ≠ 0 ∧
    setTxos readyBuilder [spentTxo] =
      Except.ok { readyBuilder with inputs := [] } ∧
    build ledgerTwelve { readyBuilder with inputs := [] } [] =
      Except.error WalletTransactionBuilderError.NoInputs :=
  ⟨by decide, by decide,
   ((setTxos_keeps_unspent readyBuilder [spentTxo]).2.2 (by decide)).1,
   ((setTxos_keeps_unspent readyBuilder [spentTxo]).2.2 (by decide)).2
     ledgerTwelve [] (by decide)⟩

/-! Claim C7: the two eligibility guards of decoy sampling. -/

/-- Claim C7: get_rings and sample_mixins fail with InvalidArgument exactly
when the excluded-index count exceeds the ledger output count, and — when
that first guard passes, so the difference is meaningful — fail with
InsufficientTxOuts exactly when the requested decoys (RING_SIZE * numRings
for get_rings, numMixins for sample_mixins) exceed the unexcluded output
population. -/
theorem sampling_guards (env : LedgerEnv) (numRings numMixins : Nat)
    (excluded sampled : List Nat) :
    (getRings env numRings excluded sampled =
        Except.error (WalletTransactionBuilderError.InvalidArgument
          "excluded_tx_out_indices exceeds amount of tx outs in ledger") ↔
      env.numTxos < excluded.length) ∧
    (excluded.length ≤ env.numTxos →
      (getRings env numRings excluded sampled =
          Except.error WalletTransactionBuilderError.InsufficientTxOuts ↔
        env.numTxos - excluded.length < RING_SIZE * numRings)) ∧
    (sampleMixins env numMixins excluded sampled =
        Except.error (LedgerServiceError.InvalidArgument
          "excluded_tx_out_indices exceeds amount of tx outs in ledger") ↔
      env.numTxos < excluded.length) ∧
    (excluded.length ≤ env.numTxos →
      (sampleMixins env numMixins excluded sampled =
          Except.error LedgerServiceError.InsufficientTxOuts ↔
        env.numTxos - excluded.length < numMixins)) := by
  refine ⟨?_, ?_, ?_, ?_⟩
  · unfold getRings
    split_ifs with h1 h2 <;> simp_all
  · intro hle
    unfold getRings
    split_ifs with h1 h2 <;> simp_all
    omega
  · unfold sampleMixins
    split_ifs with h1 h2 <;> simp_all
  · intro hle
    unfold sampleMixins
    split_ifs with h1 h2 <;> simp_all
    omega

/-- Claim C7, witness: on a 12-output ledger with one excluded index, the
first guard passes, one ring of 11 decoys is feasible, and 12 mixins are
not. -/
theorem sampling_guards_witness :
    ([(11 : Nat)].length ≤ ledgerTwelve.numTxos) ∧
    (getRings ledgerTwelve 1 [11] decoySample =
        Except.error WalletTransactionBuilderError.InsufficientTxOuts ↔
      ledgerTwelve.numTxos - [(11 : Nat)].length < RING_SIZE * 1) ∧
    (sampleMixins ledgerTwelve 12 [11] decoySample =
        Except.error LedgerServiceError.InsufficientTxOuts ↔
      ledgerTwelve.numTxos - [(11 : Nat)].length < 12) :=
  ⟨by decide,
   (sampling_guards ledgerTwelve 1 12 [11] decoySample).2.1 (by decide),
   (sampling_guards ledgerTwelve 1 12 [11] decoySample).2.2.2 (by decide)⟩

/-! Claim C9: idempotence of the orphan-repair pass. -/

/-- A correctly labeled txo is a fixed point of the full-key repair
iteration. -/
theorem repairTxo_fixed (env : RepairEnv) (t : OrphanTxo)
    (h : correctlyLabeled env t) : repairTxo env t = t := by
  unfold repairTxo
  split_ifs with hm
  · obtain ⟨h1, h2, h3⟩ := h hm
    cases hki : env.ledgerContainsKeyImage (env.deriveKeyImage t.publicKey)
    · simp only [hki]
      cases t
      simp_all
    · simp only [hki]
      have h4 := h3 hki
      cases t
      simp_all
  · rfl

/-- A correctly labeled txo is a fixed point of the view-only repair
iteration. -/
theorem repairTxoViewOnly_fixed (env : RepairEnv) (t : OrphanTxo)
    (h : correctlyLabeled env t) : repairTxoViewOnly env t = t := by
  unfold repairTxoViewOnly
  split_ifs with hm
  · obtain ⟨h1, _, _⟩ := h hm
    cases t
    simp_all
  · rfl

/-- Claim C9: the repair pass of create_next_for_account is idempotent —
run against an orphan set whose members already carry the labels the pass
derives (subaddress index, key image, spent state), both the full-key and
the view-only repair loops leave every txo unchanged. -/
theorem repair_pass_idempotent (env : RepairEnv) (ts : List OrphanTxo)
    (h : ∀ t ∈ ts, correctlyLabeled env t) :
    repairOrphans env ts = ts ∧ repairOrphansViewOnly env ts = ts := by
  constructor
  · unfold repairOrphans
    induction ts with
    | nil => rfl
    | cons a l ih =>
      simp only [List.map_cons]
      rw [repairTxo_fixed env a (h a (List.mem_cons_self a l)),
        ih (fun t ht => h t (List.mem_cons_of_mem a ht))]
  · unfold repairOrphansViewOnly
    induction ts with
    | nil => rfl
    | cons a l ih =>
      simp only [List.map_cons]
      rw [repairTxoViewOnly_fixed env a (h a (List.mem_cons_self a l)),
        ih (fun t ht => h t (List.mem_cons_of_mem a ht))]

/-- A concrete repair environment: spend keys recover to the sum of the two
key components, key images double the public key, the ledger holds key
image 6, txos spend at block 3, and the new subaddress has index 7. -/
def repairEnvExample : RepairEnv :=
  { recoverSubaddressSpendKey := fun a b => a + b,
    subaddressSpendPublicKey := 5,
    deriveKeyImage := fun p => p * 2,
    ledgerContainsKeyImage := fun k => k == 6,
    blockIndexOfTxo := fun _ => 3,
    nextSubaddressIndex := 7 }

/-- An orphan set holding one matching, fully labeled txo and one
non-matching txo. -/
def repairedOrphans : List OrphanTxo :=
  [{ targetKey := 2, publicKey := 3, subaddressIndex := some 7,
     keyImage := some 6, spentBlockIndex := some 3 },
   { targetKey := 0, publicKey := 1, subaddressIndex := none,
     keyImage := none, spentBlockIndex := none }]

/-- Claim C9, witness: the repair pass leaves the concrete correctly
labeled orphan set unchanged in both branches. -/
theorem repair_pass_idempotent_witness :
    (∀ t ∈ repairedOrphans, correctlyLabeled repairEnvExample t) ∧
    repairOrphans repairEnvExample repairedOrphans = repairedOrphans ∧
    repairOrphansViewOnly repairEnvExample repairedOrphans = repairedOrphans :=
  ⟨by decide,
   (repair_pass_idempotent repairEnvExample repairedOrphans (by decide)).1,
   (repair_pass_idempotent repairEnvExample repairedOrphans (by decide)).2⟩

/-! Claim C4: missing InsufficientInputFunds guard in build(). -/

/-- Claim C4: on explicit inputs worth exactly the requested recipient value
(nothing left for the fee) build() does not return InsufficientInputFunds —
the guard the in-file test test_setting_txos expects is absent — instead the
unchecked change subtraction wraps and the build succeeds with an absurd
change output of 2^64 - 400000000 (in a debug build the same subtraction
panics). -/
theorem build_underfunded_returns_ok :
    build ledgerTwelve underfundedBuilder decoySample =
      Except.ok underfundedSigningData ∧
    underfundedSigningData.changeOutputs =
      [(0, u64Limit - MOB_MINIMUM_FEE)] := ⟨rfl, rfl⟩

/-! Claim C1: the per-asset balance invariant of successful builds. -/

/-- Claim C1: the balance invariant fails on the code — the underfunded
explicit-input build succeeds (release semantics: the change subtraction
wraps), and for its only input asset type the summed input values do not
equal outputs plus change plus fee; the invariant is violated by exactly
the wrapped-around 2^64. -/
theorem build_success_not_balanced :
    build ledgerTwelve underfundedBuilder decoySample =
      Except.ok underfundedSigningData ∧
    0 ∈ underfundedBuilder.inputs.map (fun u => u.tokenId) ∧
    ¬ balancedForToken underfundedBuilder underfundedSigningData 0 :=
  ⟨rfl, by decide, by decide⟩

/-! Claim C3: coverage of the per-asset targets by select_txos. -/

/-- Every txo the greedy accumulation returns comes from its candidate
list. -/
theorem greedyTake_mem (target : Nat) (l : List Txo) :
    ∀ x ∈ greedyTake target l, x ∈ l := by
  induction l generalizing target with
  | nil => simp [greedyTake]
  | cons a rest ih =>
    intro x hx
    simp only [greedyTake] at hx
    split_ifs at hx with h
    · simp at hx
    · rcases List.mem_cons.mp hx with h1 | h2
      · exact List.mem_cons.mpr (Or.inl h1)
      · exact List.mem_cons.mpr (Or.inr (ih _ x h2))

/-- When the candidate list can cover the target, the greedy accumulation
covers it. -/
theorem greedyTake_sum (target : Nat) (l : List Txo)
    (h : target ≤ (l.map (fun t => t.value)).sum) :
    target ≤ ((greedyTake target l).map (fun t => t.value)).sum := by
  induction l generalizing target with
  | nil => simpa [greedyTake] using h
  | cons a rest ih =>
    by_cases h0 : target = 0
    · simp [greedyTake, h0]
    · simp only [greedyTake, if_neg h0, List.map_cons, List.sum_cons]
      simp only [List.map_cons, List.sum_cons] at h
      have h1 : target - a.value ≤ (rest.map (fun t => t.value)).sum := by omega
      have h2 := ih (target - a.value) h1
      omega

/-- A successful selection returns unspent txos of the requested asset type
from the account's txos, and their aggregate value covers the target. -/
theorem select_spendable_ok (accountTxos : List Txo) (target : Nat)
    (cap : Option Nat) (tokenId fv : Nat) (sel : List Txo)
    (hok : select_spendable_txos_for_value accountTxos target cap tokenId fv =
      Except.ok sel) :
    (∀ u ∈ sel, u.tokenId = tokenId ∧ u.spentBlockIndex = none ∧
      u ∈ accountTxos) ∧
    target ≤ (sel.map (fun t => t.value)).sum := by
  have hunspent : ∀ u ∈ accountTxos.filter
      (fun t => t.spentBlockIndex.isNone && t.tokenId == tokenId),
      u.tokenId = tokenId ∧ u.spentBlockIndex = none ∧ u ∈ accountTxos := by
    intro u hu
    obtain ⟨hmem, hp⟩ := List.mem_filter.mp hu
    simp only [Bool.and_eq_true, Option.isNone_iff_eq_none, beq_iff_eq] at hp
    exact ⟨hp.2, hp.1, hmem⟩
  cases cap with
  | none =>
    simp only [select_spendable_txos_for_value] at hok
    split_ifs at hok with h1 h2
    simp only [Except.ok.injEq] at hok
    subst hok
    refine ⟨fun u hu => hunspent u (greedyTake_mem target _ u hu), ?_⟩
    exact greedyTake_sum target _ (by omega)
  | some c =>
    simp only [select_spendable_txos_for_value] at hok
    split_ifs at hok with h1 h2 h3
    simp only [Except.ok.injEq] at hok
    subst hok
    refine ⟨?_, greedyTake_sum target _ (by omega)⟩
    intro u hu
    have hu2 := greedyTake_mem target _ u hu
    exact hunspent u (List.mem_filter.mp hu2).1

/-- A successful run of the select_txos loop ends holding exactly the
selection produced for the last entry of the target map. -/
theorem selectLoop_last (accountTxos : List Txo) (cap : Option Nat)
    (fv ft : Nat) :
    ∀ (entries : List (Nat × Nat)) (inputs0 final : List Txo),
      selectLoop accountTxos cap fv ft inputs0 entries = Except.ok final →
      ∀ t v, entries.getLast? = some (t, v) →
        select_spendable_txos_for_value accountTxos v cap t
          (if t = ft then fv else 0) = Except.ok final := by
  intro entries
  induction entries with
  | nil =>
    intro inputs0 final hok t v hlast
    simp at hlast
  | cons e rest ih =>
    intro inputs0 final hok t v hlast
    obtain ⟨t0, v0⟩ := e
    simp only [selectLoop] at hok
    by_cases hgt : v0 > u64Max
    · rw [if_pos hgt] at hok; simp at hok
    rw [if_neg hgt] at hok
    cases hsel : select_spendable_txos_for_value accountTxos v0 cap t0
        (if t0 = ft then fv else 0) with
    | error e1 => rw [hsel] at hok; simp at hok
    | ok sel =>
      rw [hsel] at hok
      cases rest with
      | nil =>
        simp only [selectLoop, Except.ok.injEq] at hok
        simp only [List.getLast?_singleton, Option.some.injEq, Prod.mk.injEq]
          at hlast
        obtain ⟨h1, h2⟩ := hlast
        subst h1
        subst h2
        subst hok
        exact hsel
      | cons r rs =>
        rw [List.getLast?_cons_cons] at hlast
        exact ih sel final hok t v hlast

/-- Claim C3, amended: after a successful select_txos the input set is the
selection for the greatest asset type in the target map (its last entry,
BTreeMap iterating in ascending key order): unspent outputs of that asset
type from the account whose aggregate value covers that asset type's
target; the selections made for the earlier asset types were assigned to
the same field and overwritten, so their targets need not be covered. -/
theorem selectTxos_covers_last_asset_type (b : Builder)
    (accountTxos : List Txo) (cap : Option Nat) (b1 : Builder)
    (t target : Nat)
    (hok : selectTxos b accountTxos cap = Except.ok b1)
    (hlast : (outlayValueSumMap b).getLast? = some (t, target)) :
    (∀ u ∈ b1.inputs, u.tokenId = t ∧ u.spentBlockIndex = none ∧
      u ∈ accountTxos) ∧
    target ≤ (b1.inputs.map (fun u => u.value)).sum := by
  simp only [selectTxos] at hok
  cases hloop : selectLoop accountTxos cap
      (b.fee.getD (MOB_MINIMUM_FEE, MOB_ID)).1
      (b.fee.getD (MOB_MINIMUM_FEE, MOB_ID)).2 b.inputs
      (outlayValueSumMap b) with
  | error e => rw [hloop] at hok; simp at hok
  | ok sel =>
    rw [hloop] at hok
    simp only [Except.ok.injEq] at hok
    have hsel := selectLoop_last accountTxos cap _ _ (outlayValueSumMap b)
      b.inputs sel hloop t target hlast
    have hprops := select_spendable_ok accountTxos target cap t _ sel hsel
    have hinputs : b1.inputs = sel := by rw [← hok]
    rw [hinputs]
    exact hprops

/-- The builder select_txos leaves behind on the two-asset-type run: only
the token-1 selection survives. -/
def twoTokenSelected : Builder :=
  { twoTokenBuilder with inputs := [txoOtherToken] }

/-- Claim C3, counterexample: with recipients in token 1 and the fee in
token 0, the target map holds 400000000 for token 0, the account owns a
token-0 output covering it (so a sufficient selection existed and was made),
yet after select_txos returns successfully the inputs hold no token-0 value
at all — each loop iteration overwrites the previous asset type's
selection. -/
theorem selectTxos_drops_earlier_asset_type :
    mapLookup 0 (outlayValueSumMap twoTokenBuilder) = some 400000000 ∧
    selectTxos twoTokenBuilder [txoFeeToken, txoOtherToken] none =
      Except.ok twoTokenSelected ∧
    ¬ inputsSufficientFor twoTokenSelected 0 400000000 ∧
    inputsSufficientFor { twoTokenBuilder with inputs := [txoFeeToken] } 0
      400000000 :=
  ⟨rfl, rfl, by decide, by decide⟩

/-- The builder the single-asset-type witness run produces. -/
def oneTokenSelected : Builder :=
  { oneTokenBuilder with inputs := [txoSelectable] }

/-- Claim C3, witness: the amended theorem evaluated on a single-asset-type
selection whose target (outlay 5 plus fee 400000000) is covered. -/
theorem selectTxos_covers_last_asset_type_witness :
    selectTxos oneTokenBuilder [txoSelectable] none =
      Except.ok oneTokenSelected ∧
    (outlayValueSumMap oneTokenBuilder).getLast? = some (0, 400000005) ∧
    (∀ u ∈ oneTokenSelected.inputs, u.tokenId = 0 ∧
      u.spentBlockIndex = none ∧ u ∈ [txoSelectable]) ∧
    400000005 ≤ (oneTokenSelected.inputs.map (fun u => u.value)).sum :=
  ⟨rfl, rfl,
   (selectTxos_covers_last_asset_type oneTokenBuilder [txoSelectable] none
     oneTokenSelected 0 400000005 rfl rfl).1,
   (selectTxos_covers_last_asset_type oneTokenBuilder [txoSelectable] none
     oneTokenSelected 0 400000005 rfl rfl).2⟩

/-! Destructuring of a successful build, shared by the invariants below. -/

/-- A successful build() passed every guard and is assembled from successful
ring sampling, input merging and change computation. -/
theorem build_ok_elim (env : LedgerEnv) (b : Builder) (sampled : List Nat)
    (sd : SigningData) (hok : build env b sampled = Except.ok sd) :
    ∃ rings creds changes,
      getRings env (inputsWithProofs env b).length (excludedIndices env b)
        sampled = Except.ok rings ∧
      mergeInputs
        ((rings.map (fun l => (l.map Prod.fst, l.map Prod.snd))).reverse)
        (inputsWithProofs env b) = Except.ok creds ∧
      changeLoop (totalValueMap b) (inputValueMap env b) =
        Except.ok changes ∧
      sd = { inputCredentials := creds
             payloadOutputs := b.outlays
             changeOutputs := changes
             feeValue := (feeOf b).1
             feeTokenId := (feeOf b).2
             tombstoneBlock := b.tombstone } := by
  unfold build at hok
  by_cases h1 : b.tombstone = 0
  · rw [if_pos h1] at hok; simp at hok
  rw [if_neg h1] at hok
  by_cases h2 : b.inputs.isEmpty
  · rw [if_pos h2] at hok; simp at hok
  rw [if_neg h2] at hok
  cases hr : getRings env (inputsWithProofs env b).length
      (excludedIndices env b) sampled with
  | error e => rw [hr] at hok; simp at hok
  | ok rings =>
    rw [hr] at hok
    dsimp only [] at hok
    by_cases h3 : rings.length ≠ (inputsWithProofs env b).length
    · rw [if_pos h3] at hok; simp at hok
    rw [if_neg h3] at hok
    by_cases h4 : b.outlays.isEmpty
    · rw [if_pos h4] at hok; simp at hok
    rw [if_neg h4] at hok
    cases hm : mergeInputs
        ((rings.map (fun l => (l.map Prod.fst, l.map Prod.snd))).reverse)
        (inputsWithProofs env b) with
    | error e => rw [hm] at hok; simp at hok
    | ok creds =>
      rw [hm] at hok
      dsimp only [] at hok
      cases hc : changeLoop (totalValueMap b) (inputValueMap env b) with
      | error e => rw [hc] at hok; simp at hok
      | ok changes =>
        rw [hc] at hok
        simp only [Except.ok.injEq] at hok
        exact ⟨rings, creds, changes, rfl, hm, rfl, hok.symm⟩

/-! Claim C6: one change output per asset type present among inputs. -/

/-- Keys of an insertWith result: the inserted key together with the
previous keys. -/
theorem insertWith_keys (f : Nat → Nat → Nat) (k v : Nat) :
    ∀ (m : List (Nat × Nat)) (a : Nat),
      a ∈ (insertWith f k v m).map Prod.fst ↔
        a = k ∨ a ∈ m.map Prod.fst := by
  intro m
  induction m with
  | nil => intro a; simp [insertWith]
  | cons p rest ih =>
    intro a
    obtain ⟨k1, v1⟩ := p
    simp only [insertWith]
    split_ifs with hlt heq
    · simp
    · subst heq
      simp only [List.map_cons, List.mem_cons]
      tauto
    · simp only [List.map_cons, List.mem_cons, ih]
      tauto

/-- insertWith preserves the strictly-ascending key order of the
association list. -/
theorem insertWith_sorted (f : Nat → Nat → Nat) (k v : Nat) :
    ∀ (m : List (Nat × Nat)),
      m.Pairwise (fun p q => p.1 < q.1) →
      (insertWith f k v m).Pairwise (fun p q => p.1 < q.1) := by
  intro m
  induction m with
  | nil => intro _; simp [insertWith]
  | cons p rest ih =>
    intro h
    obtain ⟨k1, v1⟩ := p
    obtain ⟨hhead, htail⟩ := List.pairwise_cons.mp h
    simp only [insertWith]
    split_ifs with hlt heq
    · refine List.pairwise_cons.mpr ⟨?_, h⟩
      intro q hq
      rcases List.mem_cons.mp hq with rfl | hq2
      · exact hlt
      · exact lt_trans hlt (hhead q hq2)
    · exact List.pairwise_cons.mpr ⟨hhead, htail⟩
    · refine List.pairwise_cons.mpr ⟨?_, ih htail⟩
      intro q hq
      have hk : q.1 = k ∨ q.1 ∈ rest.map Prod.fst :=
        (insertWith_keys f k v rest q.1).mp
          (List.mem_map.mpr ⟨q, hq, rfl⟩)
      rcases hk with hk | hk
      · omega
      · obtain ⟨q2, hq2, hfst⟩ := List.mem_map.mp hk
        have := hhead q2 hq2
        omega

/-- Keys accumulated by folding insertWith over a list. -/
theorem foldl_insertWith_keys (f : Nat → Nat → Nat) {α : Type}
    (key val : α → Nat) (l : List α) :
    ∀ (init : List (Nat × Nat)) (a : Nat),
      (a ∈ ((l.foldl (fun acc x => insertWith f (key x) (val x) acc)
        init).map Prod.fst)) ↔
        a ∈ init.map Prod.fst ∨ a ∈ l.map key := by
  induction l with
  | nil => intro init a; simp
  | cons x rest ih =>
    intro init a
    rw [List.foldl_cons, ih, insertWith_keys]
    simp only [List.map_cons, List.mem_cons]
    tauto

/-- Sortedness is maintained by folding insertWith. -/
theorem foldl_insertWith_sorted (f : Nat → Nat → Nat) {α : Type}
    (key val : α → Nat) (l : List α) :
    ∀ (init : List (Nat × Nat)),
      init.Pairwise (fun p q => p.1 < q.1) →
      (l.foldl (fun acc x => insertWith f (key x) (val x) acc)
        init).Pairwise (fun p q => p.1 < q.1) := by
  induction l with
  | nil => intro init h; simpa using h
  | cons x rest ih =>
    intro init h
    rw [List.foldl_cons]
    exact ih _ (insertWith_sorted f (key x) (val x) init h)

/-- A successful change loop emits exactly the keys of the per-token input
map, in order. -/
theorem changeLoop_keys (total : List (Nat × Nat)) :
    ∀ (m : List (Nat × Nat)) (changes : List (Nat × Nat)),
      changeLoop total m = Except.ok changes →
      changes.map Prod.fst = m.map Prod.fst := by
  intro m
  induction m with
  | nil =>
    intro changes h
    simp only [changeLoop, Except.ok.injEq] at h
    rw [← h]
  | cons p rest ih =>
    intro changes h
    obtain ⟨tk, iv⟩ := p
    simp only [changeLoop] at h
    cases hl : mapLookup tk total with
    | none => rw [hl] at h; simp at h
    | some tv =>
      rw [hl] at h
      cases hc : changeLoop total rest with
      | error e => rw [hc] at h; simp at h
      | ok cs =>
        rw [hc] at h
        simp only [Except.ok.injEq] at h
        rw [← h]
        simp [ih cs hc]

/-- In a list of pairs with pairwise-distinct keys, filtering on a present
key yields exactly one element. -/
theorem filter_key_singleton :
    ∀ (changes : List (Nat × Nat)) (t : Nat),
      (changes.map Prod.fst).Pairwise (fun a c => a ≠ c) →
      t ∈ changes.map Prod.fst →
      (changes.filter (fun c => c.1 = t)).length = 1 := by
  intro changes
  induction changes with
  | nil => intro t _ ht; simp at ht
  | cons c rest ih =>
    intro t hnd ht
    simp only [List.map_cons] at hnd ht
    obtain ⟨hhead, htail⟩ := List.pairwise_cons.mp hnd
    by_cases hc : c.1 = t
    · have hnil : rest.filter (fun c => c.1 = t) = [] := by
        rw [List.filter_eq_nil_iff]
        intro x hx
        have := hhead x.1 (List.mem_map.mpr ⟨x, hx, rfl⟩)
        simp only [decide_eq_true_eq]
        omega
      rw [List.filter_cons, if_pos (by simp [hc]), hnil]
      rfl
    · rw [List.filter_cons, if_neg (by simp [hc])]
      rcases List.mem_cons.mp ht with rfl | ht2
      · exact absurd rfl hc
      · exact ih t htail ht2

/-- Claim C6: for every successful build, the change outputs carry exactly
the asset types present among the inputs — exactly one change output per
input asset type, emitted even when its computed value is zero. -/
theorem build_change_once_per_input_token (env : LedgerEnv) (b : Builder)
    (sampled : List Nat) (sd : SigningData)
    (hok : build env b sampled = Except.ok sd) :
    (∀ c ∈ sd.changeOutputs, c.1 ∈ b.inputs.map (fun u => u.tokenId)) ∧
    ∀ t ∈ b.inputs.map (fun u => u.tokenId),
      (sd.changeOutputs.filter (fun c => c.1 = t)).length = 1 := by
  obtain ⟨rings, creds, changes, hr, hm, hc, hsd⟩ :=
    build_ok_elim env b sampled sd hok
  have hchange : sd.changeOutputs = changes := by rw [hsd]
  have hkeys : changes.map Prod.fst = (inputValueMap env b).map Prod.fst :=
    changeLoop_keys (totalValueMap b) (inputValueMap env b) changes hc
  have htok : (inputsWithProofs env b).map (fun p => p.1.tokenId) =
      b.inputs.map (fun u => u.tokenId) := by
    have h1 : ((inputIndexes env b).map env.proofAt).length =
        b.inputs.length := by
      simp [inputIndexes]
    have h2 := List.map_fst_zip b.inputs
      ((inputIndexes env b).map env.proofAt) (le_of_eq h1.symm)
    calc (inputsWithProofs env b).map (fun p => p.1.tokenId)
        = ((inputsWithProofs env b).map Prod.fst).map
            (fun u => u.tokenId) := by rw [List.map_map]; rfl
      _ = b.inputs.map (fun u => u.tokenId) := by
            rw [inputsWithProofs, h2]
  have hmem : ∀ a, a ∈ (inputValueMap env b).map Prod.fst ↔
      a ∈ b.inputs.map (fun u => u.tokenId) := by
    intro a
    rw [inputValueMap, foldl_insertWith_keys wadd
      (fun p => p.1.tokenId) (fun p => p.1.value) (inputsWithProofs env b)
      [] a, htok]
    simp
  have hsorted : (inputValueMap env b).Pairwise (fun p q => p.1 < q.1) := by
    rw [inputValueMap]
    exact foldl_insertWith_sorted wadd (fun (p : Txo × Nat) => p.1.tokenId)
      (fun p => p.1.value) (inputsWithProofs env b) [] (by simp)
  have hne : ((inputValueMap env b).map Prod.fst).Pairwise
      (fun a c => a ≠ c) := by
    rw [List.pairwise_map]
    exact hsorted.imp (fun h => Nat.ne_of_lt h)
  constructor
  · intro c hcmem
    rw [hchange] at hcmem
    have hck : c.1 ∈ changes.map Prod.fst := List.mem_map.mpr ⟨c, hcmem, rfl⟩
    rw [hkeys] at hck
    exact (hmem c.1).mp hck
  · intro t htmem
    rw [hchange]
    apply filter_key_singleton changes t
    · rw [hkeys]; exact hne
    · rw [hkeys]; exact (hmem t).mpr htmem

/-- Claim C6, witness: a build whose input value exactly equals outlay plus
fee still emits exactly one change output for the input asset type, of
value zero. -/
theorem build_change_once_per_input_token_witness :
    ((exactChangeSigningData.changeOutputs.filter
      (fun c => c.1 = 0)).length = 1) ∧
    exactChangeSigningData.changeOutputs = [(0, 0)] :=
  ⟨(build_change_once_per_input_token ledgerTwelve exactChangeBuilder
      decoySample exactChangeSigningData rfl).2 0 (by decide),
   rfl⟩

/-! Claim C2: ring structure of every assembled input. -/

/-- findIdx? finds nothing when the predicate holds nowhere. -/
theorem findIdx_none_of_all {α : Type} (p : α → Bool) :
    ∀ (l : List α), (∀ x ∈ l, p x = false) → ∀ i, l.findIdx? p i = none := by
  intro l
  induction l with
  | nil => intro _ i; rfl
  | cons a rest ih =>
    intro h i
    rw [List.findIdx?_cons, h a (List.mem_cons_self a rest)]
    simp only [Bool.false_eq_true, if_false]
    exact ih (fun x hx => h x (List.mem_cons_of_mem a hx)) (i + 1)

/-- The input-merge loop, on rings of exactly RING_SIZE members none of
which is a real input output, produces one credential per input whose ring
still has RING_SIZE members and proofs, whose real output sits at position
0, and whose real output occurs at exactly one ring position. -/
theorem mergeInputs_structure :
    ∀ (inps : List (Txo × Nat)) (ringsRev : List (List Nat × List Nat))
      (creds : List InputCred),
      (∀ rp ∈ ringsRev, rp.1.length = RING_SIZE ∧ rp.2.length = RING_SIZE ∧
        ∀ up ∈ inps, ∀ x ∈ rp.1, x ≠ up.1.content) →
      mergeInputs ringsRev inps = Except.ok creds →
      List.Forall₂ (fun (c : InputCred) (up : Txo × Nat) =>
        c.ring.length = RING_SIZE ∧ c.mproofs.length = c.ring.length ∧
        c.realIndex = 0 ∧ c.ring.get? 0 = some up.1.content ∧
        c.ring.count up.1.content = 1) creds inps := by
  intro inps
  induction inps with
  | nil =>
    intro ringsRev creds _ hok
    cases ringsRev <;>
      · simp only [mergeInputs, Except.ok.injEq] at hok
        rw [← hok]
        exact List.Forall₂.nil
  | cons up rest ih =>
    intro ringsRev creds hR hok
    cases ringsRev with
    | nil => simp [mergeInputs] at hok
    | cons rp rr =>
      obtain ⟨ring, mps⟩ := rp
      obtain ⟨u, pr⟩ := up
      obtain ⟨hr1, hr2, hr3⟩ := hR (ring, mps) (List.mem_cons_self _ _)
      simp only [] at hr1 hr2 hr3
      obtain ⟨r0, rtail, rfl⟩ : ∃ r0 rtail, ring = r0 :: rtail := by
        cases hring : ring with
        | nil => rw [hring] at hr1; simp [RING_SIZE] at hr1
        | cons r0 rtail => exact ⟨r0, rtail, rfl⟩
      simp only [mergeInputs] at hok
      rw [if_neg (by rw [hr1, hr2]; simp)] at hok
      have hnone : (r0 :: rtail).findIdx?
          (fun txo => txo = u.content) 0 = none := by
        apply findIdx_none_of_all
        intro x hx
        have := hr3 (u, pr) (List.mem_cons_self _ _) x hx
        simp [this]
      rw [hnone] at hok
      simp only [List.isEmpty_cons, Bool.false_eq_true, if_false] at hok
      rw [if_neg (by
        rw [List.length_set, List.length_set, hr1, hr2]
        simp)] at hok
      cases hrec : mergeInputs rr rest with
      | error e => rw [hrec] at hok; simp at hok
      | ok creds2 =>
        rw [hrec] at hok
        dsimp only [] at hok
        simp only [Except.ok.injEq] at hok
        rw [← hok]
        have hnotail : u.content ∉ rtail := by
          intro hmem
          exact hr3 (u, pr) (List.mem_cons_self _ _) u.content
            (List.mem_cons_of_mem r0 hmem) rfl
        refine List.Forall₂.cons ?_ (ih rr creds2 ?_ hrec)
        · refine ⟨?_, ?_, rfl, rfl, ?_⟩
          · simpa using hr1
          · simp only [List.length_set, List.length_cons, hr2]
            simp only [List.length_cons] at hr1
            omega
          · show ((r0 :: rtail).set 0 u.content).count u.content = 1
            rw [List.set_cons_zero, List.count_cons_self,
              List.count_eq_zero.mpr hnotail]
        · intro rp2 hrp2
          obtain ⟨l1, l2, hcont⟩ := hR rp2 (List.mem_cons_of_mem _ hrp2)
          exact ⟨l1, l2, fun up2 hup2 => hcont up2 (List.mem_cons_of_mem _ hup2)⟩

/-- Every ring the sampler assembles from a sufficiently long index list has
exactly RING_SIZE members, each the output and proof at some sampled
index. -/
theorem buildRingsFrom_wf (env : LedgerEnv) :
    ∀ (n : Nat) (sampled : List Nat), RING_SIZE * n ≤ sampled.length →
      ∀ ring ∈ buildRingsFrom env sampled n,
        ring.length = RING_SIZE ∧
        ∀ x ∈ ring, ∃ i, i ∈ sampled ∧ x = (env.txoAt i, env.proofAt i) := by
  intro n
  induction n with
  | zero => intro sampled _ ring hring; simp [buildRingsFrom] at hring
  | succ m ih =>
    intro sampled hlen ring hring
    have hmul : RING_SIZE * (m + 1) = RING_SIZE * m + RING_SIZE := by ring
    simp only [buildRingsFrom, List.mem_cons] at hring
    rcases hring with rfl | hring2
    · constructor
      · rw [List.length_map, List.length_take]
        omega
      · intro x hx
        obtain ⟨i, hi, rfl⟩ := List.mem_map.mp hx
        exact ⟨i, List.take_subset _ _ hi, rfl⟩
    · have hlen2 : RING_SIZE * m ≤ (sampled.drop RING_SIZE).length := by
        rw [List.length_drop]
        omega
      obtain ⟨hl, hmem⟩ := ih (sampled.drop RING_SIZE) hlen2 ring hring2
      refine ⟨hl, fun x hx => ?_⟩
      obtain ⟨i, hi, hx2⟩ := hmem x hx
      exact ⟨i, List.drop_subset _ _ hi, hx2⟩

/-- Claim C2: for every input of a successful build, the assembled ring has
exactly RING_SIZE members, as many membership proofs as ring members, and
the input's real output occurs at exactly one ring position — position 0,
where the merge loop writes it (the sampled rings are never empty, RING_SIZE
being positive, so the appended-when-empty sub-case never fires).  The
hypotheses state what the surrounding code guarantees: ledger outputs are
pairwise distinct, each input resolves to its own ledger index, and the
rejection-sampling loop produced enough in-range decoy indices disjoint
from the excluded real-input indices. -/
theorem build_ring_structure (env : LedgerEnv) (b : Builder)
    (sampled : List Nat) (sd : SigningData)
    (hinj : ∀ i j, i < env.numTxos → j < env.numTxos →
      env.txoAt i = env.txoAt j → i = j)
    (hidx : ∀ u ∈ b.inputs, env.indexOfContent u.content < env.numTxos ∧
      env.txoAt (env.indexOfContent u.content) = u.content)
    (hlen : RING_SIZE * b.inputs.length ≤ sampled.length)
    (hsam : ∀ i ∈ sampled, i < env.numTxos ∧
      i ∉ b.inputs.map (fun u => env.indexOfContent u.content))
    (hok : build env b sampled = Except.ok sd) :
    List.Forall₂ (fun (c : InputCred) (u : Txo) =>
      c.ring.length = RING_SIZE ∧ c.mproofs.length = c.ring.length ∧
      c.realIndex = 0 ∧ c.ring.get? 0 = some u.content ∧
      c.ring.count u.content = 1) sd.inputCredentials b.inputs := by
  obtain ⟨rings, creds, changes, hr, hm, hc, hsd⟩ :=
    build_ok_elim env b sampled sd hok
  have hproofslen : ((inputIndexes env b).map env.proofAt).length =
      b.inputs.length := by simp [inputIndexes]
  have hzip : (inputsWithProofs env b).length = b.inputs.length := by
    rw [inputsWithProofs, List.length_zip, hproofslen]
    simp
  have hrings : rings =
      buildRingsFrom env sampled (inputsWithProofs env b).length := by
    unfold getRings at hr
    split_ifs at hr with g1 g2
    simp only [Except.ok.injEq] at hr
    exact hr.symm
  have hwf := buildRingsFrom_wf env (inputsWithProofs env b).length sampled
    (by rw [hzip]; exact hlen)
  have hR : ∀ rp ∈ ((rings.map
      (fun l => (l.map Prod.fst, l.map Prod.snd))).reverse),
      rp.1.length = RING_SIZE ∧ rp.2.length = RING_SIZE ∧
      ∀ up ∈ inputsWithProofs env b, ∀ x ∈ rp.1, x ≠ up.1.content := by
    intro rp hrp
    rw [List.mem_reverse] at hrp
    obtain ⟨ring, hring, rfl⟩ := List.mem_map.mp hrp
    rw [hrings] at hring
    obtain ⟨hrl, hrmem⟩ := hwf ring hring
    refine ⟨by simp [hrl], by simp [hrl], ?_⟩
    intro up hup x hx hxc
    obtain ⟨prx, hprx, rfl⟩ := List.mem_map.mp hx
    obtain ⟨i, hi, rfl⟩ := hrmem prx hprx
    obtain ⟨u2, pr2⟩ := up
    have hu : u2 ∈ b.inputs := (List.of_mem_zip hup).1
    obtain ⟨hidx1, hidx2⟩ := hidx u2 hu
    obtain ⟨hilt, hinotex⟩ := hsam i hi
    have heqt : env.txoAt i = env.txoAt (env.indexOfContent u2.content) := by
      rw [hidx2]; exact hxc
    have hieq := hinj i (env.indexOfContent u2.content) hilt hidx1 heqt
    apply hinotex
    rw [hieq]
    exact List.mem_map.mpr ⟨u2, hu, rfl⟩
  have hforall := mergeInputs_structure (inputsWithProofs env b) _ creds hR hm
  have hfst : (inputsWithProofs env b).map Prod.fst = b.inputs :=
    List.map_fst_zip b.inputs _ (le_of_eq hproofslen.symm)
  have hcreds : sd.inputCredentials = creds := by rw [hsd]
  rw [hcreds, ← hfst, List.forall₂_map_right_iff]
  exact hforall

/-- Claim C2, witness: the ring-structure theorem evaluated on the concrete
one-input build over the 12-output ledger. -/
theorem build_ring_structure_witness :
    List.Forall₂ (fun (c : InputCred) (u : Txo) =>
      c.ring.length = RING_SIZE ∧ c.mproofs.length = c.ring.length ∧
      c.realIndex = 0 ∧ c.ring.get? 0 = some u.content ∧
      c.ring.count u.content = 1)
      exactChangeSigningData.inputCredentials exactChangeBuilder.inputs :=
  build_ring_structure ledgerTwelve exactChangeBuilder decoySample
    exactChangeSigningData (fun i j _ _ h => h) (by decide) (by decide)
    (by decide) rfl

end FullService
